import Mathlib

/-!
Shallow embedding of `store.go` from the `session` package: an in-memory,
time-expiring session store (`memoryStore`) plus per-session handles
(`store`).  Go maps are reference values, so the embedding carries an
explicit heap of value maps addressed by `Ref`; a `dataItem` and a handle
hold references into that heap, exactly as the Go structs hold map
references.  Time is modelled as an integer count of seconds; `now` is an
explicit parameter of every operation that reads the clock.
-/

set_option autoImplicit false

namespace MemSession

/-! ### UUIDs, modelled from `github.com/google/uuid` (external dependency). -/

/-- A UUID is 16 raw bytes (`uuid.UUID` is `[16]byte`). -/
structure UUID where
  bytes : List Nat
deriving DecidableEq, Repr

/-- `uuid.Nil`, the zero UUID. -/
def UUID.nil : UUID := ⟨List.replicate 16 0⟩

/-- Value of one hexadecimal digit, case-insensitive (`xtob` helper). -/
def hexVal (c : Char) : Option Nat :=
  if ('0' ≤ c ∧ c ≤ '9') then some (c.toNat - '0'.toNat)
  else if ('a' ≤ c ∧ c ≤ 'f') then some (c.toNat - 'a'.toNat + 10)
  else if ('A' ≤ c ∧ c ≤ 'F') then some (c.toNat - 'A'.toNat + 10)
  else none

/-- `xtob`: two hex digits to one byte. -/
def xtob (c1 c2 : Char) : Option Nat :=
  match hexVal c1, hexVal c2 with
  | some h1, some h2 => some (h1 * 16 + h2)
  | _, _ => none

/-- Consume a character list two at a time as hex byte pairs. -/
def parseHexBytes : List Char → Option (List Nat)
  | [] => some []
  | [_] => none
  | c1 :: c2 :: rest =>
    match xtob c1 c2, parseHexBytes rest with
    | some b, some bs => some (b :: bs)
    | _, _ => none

/-- Canonical `xxxxxxxx-xxxx-xxxx-xxxx-xxxxxxxxxxxx` form: 36 chars with
hyphens at offsets 8, 13, 18 and 23 and hex digits elsewhere. -/
def parseCanonical (cs : List Char) : Option UUID :=
  if cs.length = 36 ∧ cs.get? 8 = some '-' ∧ cs.get? 13 = some '-'
      ∧ cs.get? 18 = some '-' ∧ cs.get? 23 = some '-' then
    match parseHexBytes (cs.filter (fun c => c != '-')) with
    | some bs => if bs.length = 16 then some ⟨bs⟩ else none
    | none => none
  else none

/-- Modelled from `uuid.Parse`: accepts the canonical 36-char form, the
`urn:uuid:`-prefixed form (45 chars), a 38-char form with the first char
stripped (braces), and the plain 32-hex-digit form. -/
def uuidParse (s : String) : Option UUID :=
  let cs := s.toList
  if cs.length = 36 then parseCanonical cs
  else if cs.length = 45 then
    if (cs.take 9).map Char.toLower = ("urn:uuid:".toList) then
      parseCanonical (cs.drop 9)
    else none
  else if cs.length = 38 then parseCanonical ((cs.drop 1).take 36)
  else if cs.length = 32 then
    match parseHexBytes cs with
    | some bs => if bs.length = 16 then some ⟨bs⟩ else none
    | none => none
  else none

/-- Modelled from `uuid.FromBytes`: succeeds exactly on 16-byte input. -/
def uuidFromBytes (bs : List Nat) : Option UUID :=
  if bs.length = 16 then some ⟨bs⟩ else none

/-! ### Dynamically typed session values (`interface\x7b\x7d` payloads). -/

/-- A dynamically typed value stored under a session key.  The concrete
types the typed getters inspect are tagged; anything else is `other`. -/
inductive Value where
  | str (s : String)
  | int (i : Int)
  | bool (b : Bool)
  | uuid (u : UUID)
  | bytes (bs : List Nat)
  | other (tag : Nat)
deriving DecidableEq, Repr

/-! ### Go maps as association lists. -/

/-- Lookup in a `map[string]β`: first binding wins. -/
def alGet {β : Type} : List (String × β) → String → Option β
  | [], _ => none
  | (k1, v1) :: rest, k => if k1 = k then some v1 else alGet rest k

/-- Assignment `m[k] = v`: replace the first binding or append. -/
def alSet {β : Type} : List (String × β) → String → β → List (String × β)
  | [], k, v => [(k, v)]
  | (k1, v1) :: rest, k, v =>
    if k1 = k then (k, v) :: rest else (k1, v1) :: alSet rest k v

/-- `delete(m, k)`. -/
def alDel {β : Type} (m : List (String × β)) (k : String) : List (String × β) :=
  m.filter (fun p => decide (p.1 ≠ k))

/-- One session's value map, `map[string]interface\x7b\x7d`. -/
abbrev Values := List (String × Value)

/-! ### The heap of map references.

Go maps are reference values: `newStore(_, _, _, _, item.values)` hands the
handle the same map object the table's `dataItem` points to.  The heap
assigns each live map object an address (`Ref`); `dataItem.values` and
`store.values` are addresses. -/

abbrev Ref := Nat

structure Heap where
  maps : List Values
deriving DecidableEq, Repr

def Heap.get (h : Heap) (r : Ref) : Values := h.maps.getD r []

def Heap.write (h : Heap) (r : Ref) (v : Values) : Heap := ⟨h.maps.set r v⟩

/-- Allocate a fresh map object (`make(map[string]interface\x7b\x7d)`). -/
def Heap.alloc (h : Heap) (v : Values) : Heap × Ref :=
  (⟨h.maps ++ [v]⟩, h.maps.length)

/-! ### The table: `memoryStore.data`, a concurrent string map. -/

/-- `dataItem`: one table entry.  `expiredAt` is an absolute time in
seconds; `values` is a reference to a map object in the heap. -/
structure DataItem where
  sid : String
  expiredAt : Int
  values : Ref
deriving DecidableEq, Repr

/-- The whole mutable state: the table (`memoryStore.data`) and the heap
of map objects. -/
structure State where
  table : List (String × DataItem)
  heap : Heap
deriving DecidableEq, Repr

def State.empty : State := ⟨[], ⟨[]⟩⟩

/-- `newDataItem(sid, values, expired)`: expiry is `now + expired` seconds;
the item keeps the caller's map reference (no copy). -/
def newDataItem (sid : String) (values : Ref) (expired nowT : Int) : DataItem :=
  ⟨sid, nowT + expired, values⟩

/-- The value map currently stored in the table under `sid`, read through
the heap. -/
def loadValues (st : State) (sid : String) : Option Values :=
  (alGet st.table sid).map (fun item => st.heap.get item.values)

/-! ### `memoryStore` operations. -/

/-- `memoryStore.save`: if an entry exists, point its `values` field at the
caller's map reference (expiry untouched); otherwise insert a fresh
`dataItem` expiring at `now + expired`. -/
def memoryStore.save (st : State) (sid : String) (values : Ref)
    (expired nowT : Int) : State :=
  match alGet st.table sid with
  | some item =>
    { st with table := alSet st.table sid { item with values := values } }
  | none =>
    { st with table := alSet st.table sid (newDataItem sid values expired nowT) }

/-- `memoryStore.Check`: loads the entry and compares timestamps; returns
the unchanged state alongside the boolean (the method only reads). -/
def memoryStore.Check (st : State) (sid : String) (nowT : Int) : Bool × State :=
  match alGet st.table sid with
  | none => (false, st)
  | some item => (decide (nowT < item.expiredAt), st)

/-- The handle struct `store`: session id, requested TTL in seconds, and a
reference to its working map (the `ctx` and back-pointer are opaque). -/
structure SStore where
  sid : String
  expired : Int
  values : Ref
deriving DecidableEq, Repr

/-- `newStore`: a `nil` values argument allocates a fresh empty map,
otherwise the handle shares the given map reference. -/
def newStore (st : State) (sid : String) (expired : Int)
    (values : Option Ref) : State × SStore :=
  match values with
  | none =>
    let (h, r) := st.heap.alloc []
    ({ st with heap := h }, ⟨sid, expired, r⟩)
  | some r => (st, ⟨sid, expired, r⟩)

/-- `memoryStore.Create`: never consults the table. -/
def memoryStore.Create (st : State) (sid : String) (expired : Int) :
    State × SStore :=
  newStore st sid expired none

/-- `memoryStore.Update`: on a hit, renew `expiredAt` in place and hand the
handle the entry's map reference; on a miss, behave as `Create`. -/
def memoryStore.Update (st : State) (sid : String) (expired nowT : Int) :
    State × SStore :=
  match alGet st.table sid with
  | none => newStore st sid expired none
  | some item =>
    let item2 := { item with expiredAt := nowT + expired }
    ({ st with table := alSet st.table sid item2 }, ⟨sid, expired, item.values⟩)

/-- `memoryStore.Delete` (public, via the private `delete`). -/
def memoryStore.Delete (st : State) (sid : String) : State :=
  { st with table := alDel st.table sid }

/-- `memoryStore.Refresh`: on a hit for `oldsid`, store a new item under
`sid` sharing the old map reference, then delete `oldsid`; on a miss,
behave as `Create` (no table mutation). -/
def memoryStore.Refresh (st : State) (oldsid sid : String)
    (expired nowT : Int) : State × SStore :=
  match alGet st.table oldsid with
  | none => newStore st sid expired none
  | some item =>
    let newItem := newDataItem sid item.values expired nowT
    let st1 := { st with table := alSet st.table sid newItem }
    let st2 := { st1 with table := alDel st1.table oldsid }
    (st2, ⟨sid, expired, newItem.values⟩)

/-- One pass of `memoryStore.gc`'s range body: delete every entry whose
`expiredAt` is strictly before now. -/
def memoryStore.gc (st : State) (nowT : Int) : State :=
  { st with table := st.table.filter (fun p => !(decide (p.2.expiredAt < nowT))) }

/-! ### Handle (`store`) operations. -/

/-- `store.Set`: writes through the handle's map reference. -/
def store.Set (st : State) (h : SStore) (key : String) (v : Value) : State :=
  { st with heap := st.heap.write h.values (alSet (st.heap.get h.values) key v) }

/-- `store.Get`. -/
def store.Get (st : State) (h : SStore) (key : String) : Option Value :=
  alGet (st.heap.get h.values) key

/-- `store.GetString`: type assertion to `string`. -/
def store.GetString (st : State) (h : SStore) (key : String) : String × Bool :=
  match store.Get st h key with
  | some (Value.str s) => (s, true)
  | some _ => ("", false)
  | none => ("", false)

/-- `store.GetBool`: type assertion to `bool`. -/
def store.GetBool (st : State) (h : SStore) (key : String) : Bool × Bool :=
  match store.Get st h key with
  | some (Value.bool b) => (b, true)
  | some _ => (false, false)
  | none => (false, false)

/-- `store.GetInt`: type assertion to `int`. -/
def store.GetInt (st : State) (h : SStore) (key : String) : Int × Bool :=
  match store.Get st h key with
  | some (Value.int i) => (i, true)
  | some _ => (0, false)
  | none => (0, false)

/-- `store.GetUUID`: type switch over `uuid.UUID`, `string` (via
`uuid.Parse`) and `[]byte` (via `uuid.FromBytes`). -/
def store.GetUUID (st : State) (h : SStore) (key : String) : UUID × Bool :=
  match store.Get st h key with
  | some (Value.uuid u) => (u, true)
  | some (Value.str s) =>
    match uuidParse s with
    | some u => (u, true)
    | none => (UUID.nil, false)
  | some (Value.bytes bs) =>
    match uuidFromBytes bs with
    | some u => (u, true)
    | none => (UUID.nil, false)
  | some _ => (UUID.nil, false)
  | none => (UUID.nil, false)

/-- `store.Delete` on the handle: removes the key from the working map and
returns the previous value (`nil` when absent). -/
def store.DeleteKey (st : State) (h : SStore) (key : String) :
    Option Value × State :=
  match alGet (st.heap.get h.values) key with
  | some v =>
    (some v, { st with heap := st.heap.write h.values (alDel (st.heap.get h.values) key) })
  | none => (none, st)

/-- `store.Save`: hands the handle's map reference to `memoryStore.save`. -/
def store.Save (st : State) (h : SStore) (nowT : Int) : State :=
  memoryStore.save st h.sid h.values h.expired nowT

/-- `store.Flush`: point the handle at a fresh empty map, then save. -/
def store.Flush (st : State) (h : SStore) (nowT : Int) : State × SStore :=
  let (hp, r) := st.heap.alloc []
  let h2 : SStore := ⟨h.sid, h.expired, r⟩
  (store.Save { st with heap := hp } h2 nowT, h2)

/-! ### Ticker and gc loop, modelled from Go `time.Ticker` semantics.

`NewMemoryStore` starts `go mstore.gc()`, whose body is
`for range s.ticker.C { ... }`.  Per the Go standard library, `Stop`
prevents any further tick from being sent but never closes the channel,
and a `for range` over a channel terminates only once the channel is
closed and drained. -/

structure Ticker where
  stopped : Bool
  closed : Bool
deriving DecidableEq, Repr

/-- `time.NewTicker`: running, channel open. -/
def Ticker.new : Ticker := ⟨false, false⟩

/-- `Ticker.Stop` stops ticks; it does not close the channel. -/
def Ticker.stop (t : Ticker) : Ticker := { t with stopped := true }

/-- Whether the ticker can still deliver a tick (drive a sweep pass). -/
def Ticker.canTick (t : Ticker) : Bool := !t.stopped

/-- Whether `for range s.ticker.C` in `memoryStore.gc` can ever exit:
only when the channel has been closed. -/
def gcLoopCanExit (t : Ticker) : Bool := t.closed

/-- `memoryStore.Close`: calls `s.ticker.Stop()` and returns nil. -/
def memoryStore.Close (t : Ticker) : Ticker := Ticker.stop t

/-! ### Association list lemmas. -/

theorem alGet_alSet_self {β : Type} (m : List (String × β)) (k : String) (v : β) :
    alGet (alSet m k v) k = some v := by
  induction m with
  | nil => simp [alSet, alGet]
  | cons p rest ih =>
    obtain ⟨k1, v1⟩ := p
    by_cases hk : k1 = k
    · simp [alSet, hk, alGet]
    · simp [alSet, hk, alGet, ih]

theorem alGet_alSet_ne {β : Type} (m : List (String × β)) (k k2 : String) (v : β)
    (hne : k2 ≠ k) : alGet (alSet m k v) k2 = alGet m k2 := by
  induction m with
  | nil => simp [alSet, alGet, Ne.symm hne]
  | cons p rest ih =>
    obtain ⟨k1, v1⟩ := p
    by_cases hk : k1 = k
    · subst hk
      simp [alSet, alGet, Ne.symm hne]
    · by_cases hk2 : k1 = k2
      · simp [alSet, hk, alGet, hk2, hne]
      · simp [alSet, hk, alGet, hk2, ih]

theorem alGet_alDel_self {β : Type} (m : List (String × β)) (k : String) :
    alGet (alDel m k) k = none := by
  induction m with
  | nil => simp [alDel, alGet]
  | cons p rest ih =>
    obtain ⟨k1, v1⟩ := p
    by_cases hk : k1 = k
    · simpa [alDel, List.filter_cons, hk] using ih
    · simpa [alDel, List.filter_cons, hk, alGet] using ih

theorem alGet_alDel_ne {β : Type} (m : List (String × β)) (k k2 : String)
    (hne : k2 ≠ k) : alGet (alDel m k) k2 = alGet m k2 := by
  induction m with
  | nil => simp [alDel, alGet]
  | cons p rest ih =>
    obtain ⟨k1, v1⟩ := p
    by_cases hk : k1 = k
    · subst hk
      have hk2 : k1 ≠ k2 := Ne.symm hne
      simpa [alDel, List.filter_cons, alGet, hk2] using ih
    · by_cases hk2 : k1 = k2
      · simp [alDel, List.filter_cons, hk, alGet, hk2, hne]
      · simpa [alDel, List.filter_cons, hk, alGet, hk2] using ih

theorem alGet_none_filter {β : Type} (m : List (String × β)) (k : String)
    (p : String × β → Bool) (h : alGet m k = none) :
    alGet (m.filter p) k = none := by
  induction m with
  | nil => simp [alGet]
  | cons q rest ih =>
    obtain ⟨k1, v1⟩ := q
    by_cases hk : k1 = k
    · simp [alGet, hk] at h
    · simp only [alGet, if_neg hk] at h
      by_cases hp : p (k1, v1)
      · simp [List.filter_cons, hp, alGet, hk, ih h]
      · simp [List.filter_cons, hp, ih h]

theorem alGet_eq_none_of_not_mem_keys {β : Type} (m : List (String × β))
    (k : String) (h : k ∉ m.map Prod.fst) : alGet m k = none := by
  induction m with
  | nil => rfl
  | cons q rest ih =>
    obtain ⟨k1, v1⟩ := q
    simp only [List.map_cons, List.mem_cons] at h
    push_neg at h
    have hk : k1 ≠ k := Ne.symm h.1
    simp [alGet, hk, ih h.2]

/-- Keys of the table are distinct: every reachable Go map satisfies it. -/
def WFkeys {β : Type} (m : List (String × β)) : Prop :=
  (m.map Prod.fst).Nodup

theorem alGet_filter_of_nodup {β : Type} (m : List (String × β))
    (p : String × β → Bool) (k : String) (hwf : WFkeys m) :
    alGet (m.filter p) k =
      (alGet m k).bind (fun v => if p (k, v) then some v else none) := by
  induction m with
  | nil => simp [alGet]
  | cons q rest ih =>
    obtain ⟨k1, v1⟩ := q
    have hcons : (k1 :: rest.map Prod.fst).Nodup := by simpa [WFkeys] using hwf
    have hwf2 : WFkeys rest := (List.nodup_cons.mp hcons).2
    have hnotin : k1 ∉ rest.map Prod.fst := (List.nodup_cons.mp hcons).1
    by_cases hk : k1 = k
    · subst hk
      have hnone : alGet rest k1 = none := alGet_eq_none_of_not_mem_keys rest k1 hnotin
      by_cases hpv : p (k1, v1)
      · simp [List.filter_cons, hpv, alGet]
      · rw [List.filter_cons, if_neg (by simpa using hpv),
          alGet_none_filter rest k1 p hnone]
        simp [alGet, hpv]
    · by_cases hpv : p (k1, v1)
      · simp [List.filter_cons, hpv, alGet, hk, ih hwf2]
      · simp [List.filter_cons, hpv, alGet, hk, ih hwf2]

theorem getD_append_length {α : Type} (l : List α) (a d : α) :
    (l ++ [a]).getD l.length d = a := by
  induction l with
  | nil => rfl
  | cons x xs ih => simp [List.getD]

theorem getD_append_lt {α : Type} (l : List α) (a d : α) (n : Nat)
    (hn : n < l.length) : (l ++ [a]).getD n d = l.getD n d := by
  induction l generalizing n with
  | nil => exact absurd hn (by simp)
  | cons x xs ih =>
    cases n with
    | zero => rfl
    | succ m =>
      have := ih m (by simpa using hn)
      simp [List.getD] at this ⊢
      exact this

theorem Heap.get_alloc_self (h : Heap) (v : Values) :
    ((h.alloc v).1).get (h.alloc v).2 = v := by
  simp [Heap.alloc, Heap.get]

theorem Heap.get_alloc_lt (h : Heap) (v : Values) (r : Ref)
    (hr : r < h.maps.length) : ((h.alloc v).1).get r = h.get r := by
  simpa [Heap.alloc, Heap.get] using getD_append_lt h.maps v [] r hr

/-! ### The claims. -/

/-- C2: `Check(id)` is true exactly when an entry for `id` exists and the
current time is strictly before its `expiredAt`; at or past `expiredAt` it
is already false without any sweep; and `Check` leaves the state
untouched. -/
theorem c2_check_semantics (st : State) (sid : String) (nowT : Int) :
    ((memoryStore.Check st sid nowT).1 = true ↔
      ∃ item, alGet st.table sid = some item ∧ nowT < item.expiredAt) ∧
    (memoryStore.Check st sid nowT).2 = st ∧
    (∀ item, alGet st.table sid = some item → item.expiredAt ≤ nowT →
      (memoryStore.Check st sid nowT).1 = false) := by
  cases hlook : alGet st.table sid with
  | none =>
    refine ⟨?_, ?_, ?_⟩
    · simp only [memoryStore.Check, hlook]
      simp [hlook]
    · simp [memoryStore.Check, hlook]
    · intro item h
      cases h
  | some item =>
    refine ⟨?_, ?_, ?_⟩
    · constructor
      · intro hck
        refine ⟨item, rfl, ?_⟩
        simpa [memoryStore.Check, hlook] using hck
      · rintro ⟨item2, h2, hlt⟩
        injection h2 with h2
        subst h2
        simp [memoryStore.Check, hlook, hlt]
    · simp [memoryStore.Check, hlook]
    · intro item2 h2 hle
      injection h2 with h2
      subst h2
      simp [memoryStore.Check, hlook, not_lt.mpr hle]

/-- Witness for C2 at a concrete table: live before expiry, dead at it. -/
theorem c2_check_semantics_witness :
    (memoryStore.Check ⟨[("a", ⟨"a", 10, 0⟩)], ⟨[[]]⟩⟩ "a" 5).1 = true ∧
    (memoryStore.Check ⟨[("a", ⟨"a", 10, 0⟩)], ⟨[[]]⟩⟩ "a" 10).1 = false :=
  ⟨(c2_check_semantics ⟨[("a", ⟨"a", 10, 0⟩)], ⟨[[]]⟩⟩ "a" 5).1.mpr
      ⟨⟨"a", 10, 0⟩, rfl, by decide⟩,
    (c2_check_semantics ⟨[("a", ⟨"a", 10, 0⟩)], ⟨[[]]⟩⟩ "a" 10).2.2
      ⟨"a", 10, 0⟩ rfl (by decide)⟩

/-- C8: `Create` returns a fresh handle with an empty value map, leaves
the table exactly as it was, does not depend on the table at all, leaves
every existing map object untouched, and its handle aliases no existing
map object. -/
theorem c8_create_fresh (st : State) (sid : String) (expired : Int) :
    (memoryStore.Create st sid expired).1.table = st.table ∧
    (memoryStore.Create st sid expired).2.sid = sid ∧
    (memoryStore.Create st sid expired).2.expired = expired ∧
    (memoryStore.Create st sid expired).1.heap.get
      (memoryStore.Create st sid expired).2.values = [] ∧
    (∀ r : Ref, r < st.heap.maps.length →
      (memoryStore.Create st sid expired).1.heap.get r = st.heap.get r) ∧
    (memoryStore.Create st sid expired).2.values = st.heap.maps.length ∧
    (∀ t2 : List (String × DataItem),
      (memoryStore.Create ⟨t2, st.heap⟩ sid expired).2 =
        (memoryStore.Create st sid expired).2) := by
  refine ⟨rfl, rfl, rfl, ?_, ?_, rfl, fun t2 => rfl⟩
  · exact Heap.get_alloc_self st.heap []
  · intro r hr
    exact Heap.get_alloc_lt st.heap [] r hr

/-- Witness for C8 on a nonempty heap: fresh map is empty, old map kept. -/
theorem c8_create_fresh_witness :
    (memoryStore.Create ⟨[], ⟨[[("x", Value.int 1)]]⟩⟩ "s" 60).1.heap.get
      (memoryStore.Create ⟨[], ⟨[[("x", Value.int 1)]]⟩⟩ "s" 60).2.values = [] ∧
    (memoryStore.Create ⟨[], ⟨[[("x", Value.int 1)]]⟩⟩ "s" 60).1.heap.get 0 =
      [("x", Value.int 1)] :=
  ⟨(c8_create_fresh ⟨[], ⟨[[("x", Value.int 1)]]⟩⟩ "s" 60).2.2.2.1,
    (c8_create_fresh ⟨[], ⟨[[("x", Value.int 1)]]⟩⟩ "s" 60).2.2.2.2.1 0 (by decide)⟩

/-- C3: `Save` publishes the handle's map wholesale under its session id:
an existing entry keeps its `expiredAt` and now points at the handle's
map; a missing entry is inserted expiring at `now + ttl`; the heap is
untouched; a `Load` of the id now yields exactly the handle's mapping;
other ids are untouched. -/
theorem c3_save_wholesale (st : State) (h : SStore) (nowT : Int) :
    (∀ item, alGet st.table h.sid = some item →
      alGet (store.Save st h nowT).table h.sid =
        some ⟨item.sid, item.expiredAt, h.values⟩) ∧
    (alGet st.table h.sid = none →
      alGet (store.Save st h nowT).table h.sid =
        some ⟨h.sid, nowT + h.expired, h.values⟩) ∧
    (store.Save st h nowT).heap = st.heap ∧
    loadValues (store.Save st h nowT) h.sid = some (st.heap.get h.values) ∧
    (∀ sid2, sid2 ≠ h.sid →
      alGet (store.Save st h nowT).table sid2 = alGet st.table sid2) := by
  cases hlook : alGet st.table h.sid with
  | none =>
    refine ⟨?_, ?_, ?_, ?_, ?_⟩
    · intro item h2
      cases h2
    · intro _
      simp only [store.Save, memoryStore.save, hlook, newDataItem]
      exact alGet_alSet_self st.table h.sid _
    · simp [store.Save, memoryStore.save, hlook]
    · simp only [store.Save, memoryStore.save, hlook, loadValues, newDataItem]
      rw [alGet_alSet_self st.table h.sid _]
      rfl
    · intro sid2 hne
      simp only [store.Save, memoryStore.save, hlook]
      exact alGet_alSet_ne st.table h.sid sid2 _ hne
  | some item =>
    refine ⟨?_, ?_, ?_, ?_, ?_⟩
    · intro item2 h2
      injection h2 with h2
      subst h2
      simp only [store.Save, memoryStore.save, hlook]
      exact alGet_alSet_self st.table h.sid _
    · intro h2
      cases h2
    · simp [store.Save, memoryStore.save, hlook]
    · simp only [store.Save, memoryStore.save, hlook, loadValues]
      rw [alGet_alSet_self st.table h.sid _]
      rfl
    · intro sid2 hne
      simp only [store.Save, memoryStore.save, hlook]
      exact alGet_alSet_ne st.table h.sid sid2 _ hne

/-- Witness for C3: save over an existing entry keeps its expiry and
publishes the handle's map; a fresh `Load` sees exactly that map. -/
theorem c3_save_wholesale_witness :
    alGet (store.Save ⟨[("a", ⟨"a", 99, 0⟩)], ⟨[[], [("k", Value.str "v")]]⟩⟩
        ⟨"a", 60, 1⟩ 7).table "a" = some ⟨"a", 99, 1⟩ ∧
    loadValues (store.Save ⟨[("a", ⟨"a", 99, 0⟩)], ⟨[[], [("k", Value.str "v")]]⟩⟩
        ⟨"a", 60, 1⟩ 7) "a" = some [("k", Value.str "v")] :=
  ⟨(c3_save_wholesale ⟨[("a", ⟨"a", 99, 0⟩)], ⟨[[], [("k", Value.str "v")]]⟩⟩
      ⟨"a", 60, 1⟩ 7).1 ⟨"a", 99, 0⟩ rfl,
    (c3_save_wholesale ⟨[("a", ⟨"a", 99, 0⟩)], ⟨[[], [("k", Value.str "v")]]⟩⟩
      ⟨"a", 60, 1⟩ 7).2.2.2.1⟩

/-- C4: `Update` on a hit renews the entry's `expiredAt` to `now + ttl`
immediately, hands back a handle sharing the entry's map (so the handle's
values equal the entry's current values), touches nothing else; on a miss
it is literally `Create` and leaves the table unchanged. -/
theorem c4_update_renews (st : State) (sid : String) (expired nowT : Int) :
    (∀ item, alGet st.table sid = some item →
      alGet (memoryStore.Update st sid expired nowT).1.table sid =
        some ⟨item.sid, nowT + expired, item.values⟩ ∧
      (memoryStore.Update st sid expired nowT).2 = ⟨sid, expired, item.values⟩ ∧
      (memoryStore.Update st sid expired nowT).1.heap = st.heap ∧
      (memoryStore.Update st sid expired nowT).1.heap.get
          (memoryStore.Update st sid expired nowT).2.values =
        st.heap.get item.values ∧
      (∀ sid2, sid2 ≠ sid →
        alGet (memoryStore.Update st sid expired nowT).1.table sid2 =
          alGet st.table sid2)) ∧
    (alGet st.table sid = none →
      memoryStore.Update st sid expired nowT = memoryStore.Create st sid expired ∧
      (memoryStore.Update st sid expired nowT).1.table = st.table) := by
  cases hlook : alGet st.table sid with
  | none =>
    refine ⟨?_, fun _ => ⟨?_, ?_⟩⟩
    · intro item h2
      cases h2
    · simp [memoryStore.Update, memoryStore.Create, hlook]
    · simp [memoryStore.Update, hlook, newStore]
  | some item =>
    refine ⟨?_, ?_⟩
    · intro item2 h2
      injection h2 with h2
      subst h2
      refine ⟨?_, ?_, ?_, ?_, ?_⟩
      · simp only [memoryStore.Update, hlook]
        exact alGet_alSet_self st.table sid _
      · simp [memoryStore.Update, hlook]
      · simp [memoryStore.Update, hlook]
      · simp [memoryStore.Update, hlook]
      · intro sid2 hne
        simp only [memoryStore.Update, hlook]
        exact alGet_alSet_ne st.table sid sid2 _ hne
    · intro h2
      cases h2

/-- Witness for C4: a hit renews expiry and shares the entry's map; a miss
equals `Create`. -/
theorem c4_update_renews_witness :
    alGet (memoryStore.Update ⟨[("a", ⟨"a", 10, 0⟩)], ⟨[[("k", Value.int 3)]]⟩⟩
        "a" 60 5).1.table "a" = some ⟨"a", 65, 0⟩ ∧
    (memoryStore.Update ⟨[("a", ⟨"a", 10, 0⟩)], ⟨[[("k", Value.int 3)]]⟩⟩
        "a" 60 5).2 = ⟨"a", 60, 0⟩ ∧
    memoryStore.Update State.empty "b" 60 5 = memoryStore.Create State.empty "b" 60 :=
  ⟨((c4_update_renews ⟨[("a", ⟨"a", 10, 0⟩)], ⟨[[("k", Value.int 3)]]⟩⟩ "a" 60 5).1
      ⟨"a", 10, 0⟩ rfl).1,
    ((c4_update_renews ⟨[("a", ⟨"a", 10, 0⟩)], ⟨[[("k", Value.int 3)]]⟩⟩ "a" 60 5).1
      ⟨"a", 10, 0⟩ rfl).2.1,
    ((c4_update_renews State.empty "b" 60 5).2 rfl).1⟩

/-- C6: one sweep pass deletes exactly the entries whose `expiredAt` is
strictly before now, keeps every other entry byte-for-byte, turns no
absent id into a present one, and leaves the heap (all value maps)
untouched. -/
theorem c6_sweep_exact (st : State) (nowT : Int) (hwf : WFkeys st.table) :
    (∀ sid item, alGet st.table sid = some item → item.expiredAt < nowT →
      alGet (memoryStore.gc st nowT).table sid = none) ∧
    (∀ sid item, alGet st.table sid = some item → ¬ item.expiredAt < nowT →
      alGet (memoryStore.gc st nowT).table sid = some item) ∧
    (∀ sid, alGet st.table sid = none →
      alGet (memoryStore.gc st nowT).table sid = none) ∧
    (memoryStore.gc st nowT).heap = st.heap := by
  have hfil := fun sid => alGet_filter_of_nodup st.table
    (fun p => !(decide (p.2.expiredAt < nowT))) sid hwf
  refine ⟨?_, ?_, ?_, rfl⟩
  · intro sid item hget hexp
    rw [memoryStore.gc]
    rw [hfil sid, hget]
    simp [hexp]
  · intro sid item hget hexp
    rw [memoryStore.gc]
    rw [hfil sid, hget]
    simp [hexp]
  · intro sid hget
    rw [memoryStore.gc]
    rw [hfil sid, hget]
    rfl

/-- Witness for C6: the expired entry goes, the live entry stays. -/
theorem c6_sweep_exact_witness :
    alGet (memoryStore.gc ⟨[("a", ⟨"a", 3, 0⟩), ("b", ⟨"b", 9, 1⟩)], ⟨[[], []]⟩⟩
        5).table "a" = none ∧
    alGet (memoryStore.gc ⟨[("a", ⟨"a", 3, 0⟩), ("b", ⟨"b", 9, 1⟩)], ⟨[[], []]⟩⟩
        5).table "b" = some ⟨"b", 9, 1⟩ :=
  ⟨(c6_sweep_exact ⟨[("a", ⟨"a", 3, 0⟩), ("b", ⟨"b", 9, 1⟩)], ⟨[[], []]⟩⟩ 5
      (by unfold WFkeys; decide)).1 "a" ⟨"a", 3, 0⟩ rfl (by decide),
    (c6_sweep_exact ⟨[("a", ⟨"a", 3, 0⟩), ("b", ⟨"b", 9, 1⟩)], ⟨[[], []]⟩⟩ 5
      (by unfold WFkeys; decide)).2.1 "b" ⟨"b", 9, 1⟩ rfl (by decide)⟩

/-! ### C10: the sid-field/key invariant. -/

/-- Every entry's `sid` field equals the key it is stored under. -/
def SidInv (t : List (String × DataItem)) : Prop :=
  ∀ p ∈ t, p.2.sid = p.1

theorem mem_alSet {β : Type} (m : List (String × β)) (k : String) (v : β)
    (p : String × β) (h : p ∈ alSet m k v) : p = (k, v) ∨ p ∈ m := by
  induction m with
  | nil => simpa [alSet] using h
  | cons q rest ih =>
    obtain ⟨k1, v1⟩ := q
    by_cases hk : k1 = k
    · rw [alSet, if_pos hk] at h
      rcases List.mem_cons.mp h with h2 | h2
      · exact Or.inl h2
      · exact Or.inr (List.mem_cons_of_mem _ h2)
    · rw [alSet, if_neg hk] at h
      rcases List.mem_cons.mp h with h2 | h2
      · exact Or.inr (h2 ▸ List.mem_cons_self _ _)
      · rcases ih h2 with h3 | h3
        · exact Or.inl h3
        · exact Or.inr (List.mem_cons_of_mem _ h3)

theorem mem_of_alGet {β : Type} (m : List (String × β)) (k : String) (v : β)
    (h : alGet m k = some v) : (k, v) ∈ m := by
  induction m with
  | nil => cases h
  | cons q rest ih =>
    obtain ⟨k1, v1⟩ := q
    by_cases hk : k1 = k
    · subst hk
      rw [alGet, if_pos rfl] at h
      injection h with h
      subst h
      exact List.mem_cons_self _ _
    · rw [alGet, if_neg hk] at h
      exact List.mem_cons_of_mem _ (ih h)

theorem SidInv.alSet_preserve (t : List (String × DataItem)) (k : String)
    (item : DataItem) (hinv : SidInv t) (hsid : item.sid = k) :
    SidInv (alSet t k item) := by
  intro p hp
  rcases mem_alSet t k item p hp with h | h
  · rw [h]
    exact hsid
  · exact hinv p h

theorem SidInv.filter_preserve (t : List (String × DataItem))
    (p : String × DataItem → Bool) (hinv : SidInv t) :
    SidInv (t.filter p) :=
  fun q hq => hinv q (List.mem_of_mem_filter hq)

/-- C10: every lifecycle operation and the sweep preserve the invariant
that a table entry's `sid` field equals its map key. -/
theorem c10_sid_matches_key (st : State) (sid oldsid : String)
    (expired nowT : Int) (vref : Ref) (hinv : SidInv st.table) :
    SidInv (memoryStore.Create st sid expired).1.table ∧
    SidInv (store.Save st ⟨sid, expired, vref⟩ nowT).table ∧
    SidInv (memoryStore.Update st sid expired nowT).1.table ∧
    SidInv (memoryStore.Delete st sid).table ∧
    SidInv (memoryStore.Refresh st oldsid sid expired nowT).1.table ∧
    SidInv (memoryStore.gc st nowT).table := by
  refine ⟨hinv, ?_, ?_, ?_, ?_, ?_⟩
  · cases hlook : alGet st.table sid with
    | none =>
      simp only [store.Save, memoryStore.save, hlook, newDataItem]
      exact SidInv.alSet_preserve st.table sid _ hinv rfl
    | some item =>
      simp only [store.Save, memoryStore.save, hlook]
      have hsid : item.sid = sid := hinv (sid, item) (mem_of_alGet _ _ _ hlook)
      exact SidInv.alSet_preserve st.table sid _ hinv hsid
  · cases hlook : alGet st.table sid with
    | none =>
      simp only [memoryStore.Update, hlook, newStore]
      exact hinv
    | some item =>
      simp only [memoryStore.Update, hlook]
      have hsid : item.sid = sid := hinv (sid, item) (mem_of_alGet _ _ _ hlook)
      exact SidInv.alSet_preserve st.table sid _ hinv hsid
  · exact SidInv.filter_preserve st.table _ hinv
  · cases hlook : alGet st.table oldsid with
    | none =>
      simp only [memoryStore.Refresh, hlook, newStore]
      exact hinv
    | some item =>
      simp only [memoryStore.Refresh, hlook, newDataItem]
      exact SidInv.filter_preserve _ _
        (SidInv.alSet_preserve st.table sid _ hinv rfl)
  · exact SidInv.filter_preserve st.table _ hinv

/-- Witness for C10: the invariant survives a refresh on a concrete
state. -/
theorem c10_sid_matches_key_witness :
    SidInv (memoryStore.Refresh ⟨[("a", ⟨"a", 9, 0⟩)], ⟨[[]]⟩⟩
      "a" "b" 60 0).1.table :=
  (c10_sid_matches_key ⟨[("a", ⟨"a", 9, 0⟩)], ⟨[[]]⟩⟩ "b" "a" 60 0 0
    (by unfold SidInv; decide)).2.2.2.2.1

/-! ### C5: Refresh. -/

/-- C5 counterexample: with `oldId` absent, `Refresh` does not create any
entry under `newId`, so `Check(newId)` stays false, contrary to the claim
that a table entry is created and `Check(newId)` is true. -/
theorem c5_refresh_counterexample :
    (memoryStore.Check (memoryStore.Refresh State.empty "old" "new" 60 0).1
      "new" 0).1 = false ∧
    alGet (memoryStore.Refresh State.empty "old" "new" 60 0).1.table "new" =
      none := by
  decide

/-- C5 amended: when an entry for `oldId` exists and `oldId` differs from
`newId`, `Refresh` stores under `newId` an entry expiring at `now + ttl`
that shares the old entry's value map, deletes `oldId`, and returns a
handle bound to `newId` carrying those values; then `Check(oldId)` is
false and, for a positive ttl, `Check(newId)` is true.  When `oldId` is
absent, `Refresh` is exactly `Create`: a fresh empty handle and an
untouched table. -/
theorem c5_refresh_rotates (st : State) (oldsid sid : String)
    (expired nowT : Int) :
    (∀ item, alGet st.table oldsid = some item → oldsid ≠ sid →
      alGet (memoryStore.Refresh st oldsid sid expired nowT).1.table sid =
        some ⟨sid, nowT + expired, item.values⟩ ∧
      alGet (memoryStore.Refresh st oldsid sid expired nowT).1.table oldsid =
        none ∧
      (memoryStore.Refresh st oldsid sid expired nowT).2 =
        ⟨sid, expired, item.values⟩ ∧
      (memoryStore.Refresh st oldsid sid expired nowT).1.heap = st.heap ∧
      (memoryStore.Check (memoryStore.Refresh st oldsid sid expired nowT).1
        oldsid nowT).1 = false ∧
      (0 < expired →
        (memoryStore.Check (memoryStore.Refresh st oldsid sid expired nowT).1
          sid nowT).1 = true)) ∧
    (alGet st.table oldsid = none →
      memoryStore.Refresh st oldsid sid expired nowT =
        memoryStore.Create st sid expired ∧
      (memoryStore.Refresh st oldsid sid expired nowT).1.table = st.table) := by
  cases hlook : alGet st.table oldsid with
  | none =>
    refine ⟨?_, fun _ => ⟨?_, ?_⟩⟩
    · intro item h2
      cases h2
    · simp [memoryStore.Refresh, memoryStore.Create, hlook]
    · simp [memoryStore.Refresh, hlook, newStore]
  | some item =>
    refine ⟨?_, ?_⟩
    · intro item2 h2 hne
      injection h2 with h2
      subst h2
      have hgetsid :
          alGet (memoryStore.Refresh st oldsid sid expired nowT).1.table sid =
            some ⟨sid, nowT + expired, item.values⟩ := by
        simp only [memoryStore.Refresh, hlook, newDataItem]
        rw [alGet_alDel_ne _ oldsid sid (Ne.symm hne)]
        exact alGet_alSet_self st.table sid _
      have hgetold :
          alGet (memoryStore.Refresh st oldsid sid expired nowT).1.table
            oldsid = none := by
        simp only [memoryStore.Refresh, hlook, newDataItem]
        exact alGet_alDel_self _ oldsid
      refine ⟨hgetsid, hgetold, ?_, ?_, ?_, ?_⟩
      · simp [memoryStore.Refresh, hlook, newDataItem]
      · simp [memoryStore.Refresh, hlook]
      · simp [memoryStore.Check, hgetold]
      · intro hpos
        simp only [memoryStore.Check, hgetsid]
        simp
        omega
    · intro h2
      cases h2

/-- Witness for C5 amended: rotating `old` to `new` with values `{x:"1"}`
moves the entry, and afterwards `Check(old)` is false, `Check(new)` true. -/
theorem c5_refresh_rotates_witness :
    alGet (memoryStore.Refresh ⟨[("old", ⟨"old", 100, 0⟩)],
        ⟨[[("x", Value.str "1")]]⟩⟩ "old" "new" 60 0).1.table "new" =
      some ⟨"new", 60, 0⟩ ∧
    (memoryStore.Check (memoryStore.Refresh ⟨[("old", ⟨"old", 100, 0⟩)],
        ⟨[[("x", Value.str "1")]]⟩⟩ "old" "new" 60 0).1 "old" 0).1 = false ∧
    (memoryStore.Check (memoryStore.Refresh ⟨[("old", ⟨"old", 100, 0⟩)],
        ⟨[[("x", Value.str "1")]]⟩⟩ "old" "new" 60 0).1 "new" 0).1 = true := by
  have h := (c5_refresh_rotates ⟨[("old", ⟨"old", 100, 0⟩)],
    ⟨[[("x", Value.str "1")]]⟩⟩ "old" "new" 60 0).1 ⟨"old", 100, 0⟩ rfl
    (by decide)
  exact ⟨h.1, h.2.2.2.2.1, h.2.2.2.2.2 (by decide)⟩

/-! ### C1: the handle returned by Update aliases the table entry's map. -/

/-- C1 scenario: create session `sid1` with `{x:1}` and save it, then take
an `Update` handle and call `Set("y", 2)` on it, with no further `Save`. -/
def c1s0 : State := State.empty

def c1pairCreate : State × SStore := memoryStore.Create c1s0 "sid1" 60

def c1h1 : SStore := c1pairCreate.2

def c1s2 : State := store.Set c1pairCreate.1 c1h1 "x" (Value.int 1)

def c1s3 : State := store.Save c1s2 c1h1 0

def c1pairUpdate : State × SStore := memoryStore.Update c1s3 "sid1" 60 0

def c1h2 : SStore := c1pairUpdate.2

def c1s5 : State := store.Set c1pairUpdate.1 c1h2 "y" (Value.int 2)

/-- C1 fails on the code: the `Update` handle shares the table entry's map
object, so `Set("y", 2)` on the handle — before any `Save` — already
changes the table entry's values for `sid1` from `{x:1}` to `{x:1, y:2}`,
while the claim (and the interface comment `Set session value, call save
function to take effect`) says the table entry stays unchanged until
`Save`. -/
theorem c1_set_leaks_into_table :
    loadValues c1pairUpdate.1 "sid1" = some [("x", Value.int 1)] ∧
    c1s5 = store.Set c1pairUpdate.1 c1h2 "y" (Value.int 2) ∧
    loadValues c1s5 "sid1" =
      some [("x", Value.int 1), ("y", Value.int 2)] := by
  refine ⟨by decide, rfl, by decide⟩

/-! ### C7: Close and the gc loop. -/

/-- C7 fails on the code: `Close` calls `ticker.Stop()`, which does stop
further ticks (so no further sweep passes are driven), but never closes
the ticker channel, so the `for range` in `gc` can never exit: the loop
does not terminate and the goroutine leaks, contrary to the claim. -/
theorem c7_close_gc_loop_blocked :
    Ticker.canTick (memoryStore.Close Ticker.new) = false ∧
    gcLoopCanExit (memoryStore.Close Ticker.new) = false := by
  decide

/-! ### C9: typed getters. -/

def Value.isStr : Value → Bool
  | .str _ => true
  | _ => false

def Value.isInt : Value → Bool
  | .int _ => true
  | _ => false

def Value.isBool : Value → Bool
  | .bool _ => true
  | _ => false

/-- The dynamic types `GetUUID`'s type switch accepts. -/
def Value.uuidCompatible : Value → Bool
  | .uuid _ => true
  | .str _ => true
  | .bytes _ => true
  | _ => false

/-- C9: the typed getters never fail: on an absent key or a value of the
wrong dynamic type they return the zero value and false; on a matching
type they return the value and true; `GetUUID` additionally parses a
string form and decodes a raw 16-byte form, returning the parsed UUID and
true exactly when that succeeds. -/
theorem c9_typed_getters_safe (st : State) (h : SStore) (key : String) :
    (store.Get st h key = none →
      store.GetString st h key = ("", false) ∧
      store.GetInt st h key = (0, false) ∧
      store.GetBool st h key = (false, false) ∧
      store.GetUUID st h key = (UUID.nil, false)) ∧
    (∀ v, store.Get st h key = some v →
      (v.isStr = false → store.GetString st h key = ("", false)) ∧
      (v.isInt = false → store.GetInt st h key = (0, false)) ∧
      (v.isBool = false → store.GetBool st h key = (false, false)) ∧
      (v.uuidCompatible = false → store.GetUUID st h key = (UUID.nil, false))) ∧
    (∀ s, store.Get st h key = some (Value.str s) →
      store.GetString st h key = (s, true)) ∧
    (∀ i, store.Get st h key = some (Value.int i) →
      store.GetInt st h key = (i, true)) ∧
    (∀ b, store.Get st h key = some (Value.bool b) →
      store.GetBool st h key = (b, true)) ∧
    (∀ u, store.Get st h key = some (Value.uuid u) →
      store.GetUUID st h key = (u, true)) ∧
    (∀ s u, store.Get st h key = some (Value.str s) → uuidParse s = some u →
      store.GetUUID st h key = (u, true)) ∧
    (∀ s, store.Get st h key = some (Value.str s) → uuidParse s = none →
      store.GetUUID st h key = (UUID.nil, false)) ∧
    (∀ bs u, store.Get st h key = some (Value.bytes bs) →
      uuidFromBytes bs = some u → store.GetUUID st h key = (u, true)) ∧
    (∀ bs, store.Get st h key = some (Value.bytes bs) →
      uuidFromBytes bs = none → store.GetUUID st h key = (UUID.nil, false)) := by
  refine ⟨?_, ?_, ?_, ?_, ?_, ?_, ?_, ?_, ?_, ?_⟩
  · intro hget
    simp [store.GetString, store.GetInt, store.GetBool, store.GetUUID, hget]
  · intro v hget
    refine ⟨?_, ?_, ?_, ?_⟩ <;> intro hv <;>
      cases v <;>
        simp_all [store.GetString, store.GetInt, store.GetBool,
          store.GetUUID, Value.isStr, Value.isInt, Value.isBool,
          Value.uuidCompatible]
  · intro s hget
    simp [store.GetString, hget]
  · intro i hget
    simp [store.GetInt, hget]
  · intro b hget
    simp [store.GetBool, hget]
  · intro u hget
    simp [store.GetUUID, hget]
  · intro s u hget hparse
    simp [store.GetUUID, hget, hparse]
  · intro s hget hparse
    simp [store.GetUUID, hget, hparse]
  · intro bs u hget hdec
    simp [store.GetUUID, hget, hdec]
  · intro bs hget hdec
    simp [store.GetUUID, hget, hdec]

def c9vals : Values :=
  [("n", Value.int 5), ("u", Value.str "123e4567-e89b-12d3-a456-426614174000")]

def c9st : State := ⟨[], ⟨[c9vals]⟩⟩

def c9h : SStore := ⟨"s", 60, 0⟩

/-- Witness for C9, the spec's own example: `Set("n", 5)` then
`GetString("n")` gives `("", false)`; a stored canonical UUID string is
parsed by `GetUUID` and returned with true. -/
theorem c9_typed_getters_safe_witness :
    store.GetString c9st c9h "n" = ("", false) ∧
    store.GetUUID c9st c9h "u" =
      (⟨[18, 62, 69, 103, 232, 155, 18, 211, 164, 86, 66, 102, 20, 23, 64, 0]⟩,
        true) :=
  ⟨((c9_typed_getters_safe c9st c9h "n").2.1 (Value.int 5) rfl).1 rfl,
    (c9_typed_getters_safe c9st c9h "u").2.2.2.2.2.2.1
      "123e4567-e89b-12d3-a456-426614174000"
      ⟨[18, 62, 69, 103, 232, 155, 18, 211, 164, 86, 66, 102, 20, 23, 64, 0]⟩
      rfl (by decide)⟩

end MemSession
